import Mathlib

/-!
Verification of the workforce-dashboard normalization and CSV-export pipeline
(`src/table-script.tsx`).

JavaScript numbers are modelled by `JSVal`: a value is either `undefined`,
`NaN`, or a rational number (every numeric value arising in this program is a
finite decimal, so ℚ is adequate).  The builtin `parseFloat` is modelled by
`parseFloatJS`, which parses the longest valid decimal prefix (optional
whitespace, sign, digits, fraction, exponent) and returns `none` (= NaN) when
no digits are found.  `Papa.unparse` is modelled by `papaUnparse`, reproducing
papaparse's quoting rules (quote a field iff it contains a delimiter, a quote,
a newline, or a BOM, or starts/ends with a space; double embedded quotes),
its `\r\n` line terminator, header taken from the row fields, and its
behaviour on the empty row list (empty output, no header).
-/

set_option maxRecDepth 4000

/-- A JavaScript value as it appears in the numeric row fields: `undefined`,
`NaN`, or a (finite decimal) number. -/

inductive JSVal where
  | undef : JSVal
  | nan : JSVal
  | num : ℚ → JSVal
  deriving DecidableEq, Repr

/-- JavaScript nullish coalescing `x ?? y`: `y` when `x` is `undefined`
(or `null`), otherwise `x`.  Note that `NaN ?? y` is `NaN`. -/

def nullish (x y : JSVal) : JSVal :=
  match x with
  | JSVal.undef => y
  | v => v

/-- One entry of `lastThreeMonthsIndividually`. -/

structure MonthEntry where
  month : String
  utilisationRate : String
  deriving DecidableEq, Repr

/-- The `workforceUtilisation` block of a person. -/

structure UtilisationBlock where
  utilisationRateLastTwelveMonths : Option String
  utilisationRateYearToDate : Option String
  monthlyCostDifference : Option String
  lastThreeMonthsIndividually : Option (List MonthEntry)
  deriving DecidableEq, Repr

/-- A person block (`employees` or `externals` value). -/

structure PersonBlock where
  status : String
  jobType : String
  firstname : String
  lastname : Option String
  workforceUtilisation : Option UtilisationBlock
  deriving DecidableEq, Repr

/-- A raw source record: two optional person blocks. -/

structure SourceRecord where
  employees : Option PersonBlock
  externals : Option PersonBlock
  deriving DecidableEq, Repr

/-- A normalized output row (`TableDataType`). -/

structure Row where
  person : String
  past12Months : JSVal
  y2d : JSVal
  may : JSVal
  june : JSVal
  july : JSVal
  netEarningsPrevMonth : JSVal
  deriving DecidableEq, Repr

/-- Split a character list into its longest prefix of ASCII digits and
the rest. -/

def takeDigits : List Char → List Char × List Char
  | [] => ([], [])
  | c :: cs =>
    if c.isDigit then
      let p := takeDigits cs
      (c :: p.1, p.2)
    else ([], c :: cs)

/-- Numeric value of a big-endian list of digit characters. -/

def digitsVal (ds : List Char) : Nat :=
  ds.foldl (fun a c => 10 * a + (c.toNat - 48)) 0

/-- The whitespace `parseFloat` skips before the number. -/

def wsChar (c : Char) : Bool :=
  c = ' ' || c = '\t' || c = '\n' || c = '\r'

/-- Read an optional leading sign. -/

def parseSign (cs : List Char) : ℚ × List Char :=
  match cs with
  | '-' :: rest => (-1, rest)
  | '+' :: rest => (1, rest)
  | _ => (1, cs)

/-- Read an optional exponent part (`e`/`E`, optional sign, digits);
`none` when there is no well-formed exponent here. -/

def parseExp (cs : List Char) : Option Int :=
  match cs with
  | c :: rest =>
    if c = 'e' ∨ c = 'E' then
      let es : Int × List Char :=
        match rest with
        | '-' :: r => (-1, r)
        | '+' :: r => (1, r)
        | _ => (1, rest)
      let eds := takeDigits es.2
      if eds.1 = [] then none else some (es.1 * (digitsVal eds.1 : Int))
    else none
  | [] => none

/-- Model of JavaScript `parseFloat` on the decimal fragment: skip leading
whitespace, read an optional sign, digits, an optional fraction and an
optional exponent, all as the longest valid prefix; `none` (NaN) when no
digit is read. -/

def parseFloatJS (s : String) : Option ℚ :=
  let sgn := parseSign (s.data.dropWhile wsChar)
  let ip := takeDigits sgn.2
  let fp : List Char × List Char :=
    match ip.2 with
    | '.' :: rest => takeDigits rest
    | _ => ([], ip.2)
  if ip.1 = [] ∧ fp.1 = [] then none
  else
    some (sgn.1 * ((digitsVal ip.1 : ℚ) + (digitsVal fp.1 : ℚ) / (10 ^ fp.1.length)) *
      (10 : ℚ) ^ ((parseExp fp.2).getD 0))

/-- `parseUtil` from the source: `val !== undefined ? parseFloat(val) :
undefined`. -/

def parseUtil (val : Option String) : JSVal :=
  match val with
  | none => JSVal.undef
  | some s =>
    match parseFloatJS s with
    | none => JSVal.nan
    | some q => JSVal.num q

/-- `getMonthUtil` from the source:
`parseUtil(util?.lastThreeMonthsIndividually?.find(m => m.month === month)?.utilisationRate)`. -/

def getMonthUtil (util : Option UtilisationBlock) (month : String) : JSVal :=
  parseUtil
    ((util.bind (fun u => u.lastThreeMonthsIndividually)).bind
      (fun l => (l.find? (fun m => m.month == month)).map
        (fun m => m.utilisationRate)))

/-- The body of the `.map` in `loadData`, applied to the chosen person block
(`personData = row.employees ?? row.externals`): name construction and the
seven row fields. -/

def rowOfPerson (personData : PersonBlock) : Row :=
  let util := personData.workforceUtilisation
  let name :=
    if personData.jobType == "external" then
      "External " ++ personData.firstname ++ " " ++ personData.lastname.getD ""
    else
      personData.firstname ++ " " ++ personData.lastname.getD ""
  { person := name
    past12Months := parseUtil (util.bind (fun u => u.utilisationRateLastTwelveMonths))
    y2d := parseUtil (util.bind (fun u => u.utilisationRateYearToDate))
    may := getMonthUtil util "May"
    june := getMonthUtil util "June"
    july := getMonthUtil util "July"
    netEarningsPrevMonth :=
      nullish (parseUtil (util.bind (fun u => u.monthlyCostDifference))) (JSVal.num 0) }

/-- The `.map` step of `loadData` on one record.  `row.employees ??
row.externals` is the chosen person block; when both blocks are absent the
JavaScript body dereferences `undefined` (`personData.firstname`), which we
model as `none`. -/

def buildRow (row : SourceRecord) : Option Row :=
  (row.employees.orElse (fun _ => row.externals)).map rowOfPerson

/-- The `.filter` predicate of `loadData`:
`row.employees?.status === "active" || row.externals?.status === "active"`. -/

def rowActive (row : SourceRecord) : Bool :=
  (row.employees.map (fun p => p.status) == some "active") ||
  (row.externals.map (fun p => p.status) == some "active")

/-- `loadData` from the source: filter the active records, then map each to a
row.  Elements are `Option Row`, `none` marking the (unreachable) crash of the
map body. -/

def loadData (records : List SourceRecord) : List (Option Row) :=
  (records.filter rowActive).map buildRow

/-- The spec's selection condition, written from the spec's words: the
`employees` block is present with status `"active"`, or the `externals`
block is present with status `"active"`. -/

def activeSpec (r : SourceRecord) : Prop :=
  (∃ p, r.employees = some p ∧ p.status = "active") ∨
  (∃ p, r.externals = some p ∧ p.status = "active")

instance (r : SourceRecord) : Decidable (activeSpec r) :=
  decidable_of_iff (rowActive r = true)
    (by cases he : r.employees <;> cases hx : r.externals <;>
      simp [rowActive, activeSpec, he, hx])

/-- Concrete external person block, from the spec's name-formatting example. -/
def pJo : PersonBlock :=
  { status := "active", jobType := "external", firstname := "Jo",
    lastname := some "Lin", workforceUtilisation := none }

/-- Concrete internal person block without a lastname, from the spec's
name-formatting example. -/

def pAna : PersonBlock :=
  { status := "active", jobType := "internal", firstname := "Ana",
    lastname := none, workforceUtilisation := none }

/-- Concrete utilisation block with two entries for the same month, from the
spec's first-match example. -/
def bDup : UtilisationBlock :=
  { utilisationRateLastTwelveMonths := none
    utilisationRateYearToDate := none
    monthlyCostDifference := none
    lastThreeMonthsIndividually :=
      some [{ month := "May", utilisationRate := "0.5" },
            { month := "May", utilisationRate := "0.9" }] }

/-- Concrete utilisation block whose `monthlyCostDifference` is present but
not a number. -/
def bBad : UtilisationBlock :=
  { utilisationRateLastTwelveMonths := none
    utilisationRateYearToDate := none
    monthlyCostDifference := some "abc"
    lastThreeMonthsIndividually := none }

/-- Concrete active person whose `monthlyCostDifference` is unparseable. -/

def pBad : PersonBlock :=
  { status := "active", jobType := "internal", firstname := "Bo",
    lastname := none, workforceUtilisation := some bBad }

/-- Concrete selected record carrying the unparseable cost difference. -/

def rBad : SourceRecord := { employees := some pBad, externals := none }

/-- Little-endian base-10 digits of `n`, with explicit fuel (`fuel ≥ n`
suffices). -/
def natDigitsLE : Nat → Nat → List Nat
  | 0, _ => []
  | fuel + 1, n => if n = 0 then [] else n % 10 :: natDigitsLE fuel (n / 10)

/-- The character of a decimal digit. -/

def digitChar (d : Nat) : Char := Char.ofNat (48 + d)

/-- Decimal representation of a natural number, as JavaScript prints it
(no leading zeros, `"0"` for zero). -/

def natChars (n : Nat) : List Char :=
  if n = 0 then ['0'] else ((natDigitsLE n n).map digitChar).reverse

/-- Left-pad a digit string with `'0'` to length `k`. -/

def padZeros (k : Nat) (ds : List Char) : List Char :=
  List.replicate (k - ds.length) '0' ++ ds

/-- The smallest `k` (searched up to 400, far beyond any JS double) such
that `q * 10 ^ k` is an integer, i.e. such that the denominator of `q`
divides `10 ^ k`; `none` when `q` is not a decimal fraction. -/

def decExp (q : ℚ) : Option Nat :=
  (List.range 400).find? (fun k => decide (10 ^ k % q.den = 0))

/-- JavaScript `Number.prototype.toString` on the decimal fractions that
arise in this program: the shortest exact decimal expansion, with a leading
`"0"` before the point and no trailing zeros (`decExp` is a minimal
exponent), and `"-"` for negatives.  Values that are not decimal fractions
cannot arise from `parseFloat` of a finite decimal; they render as `"?"`. -/

def jsNumToString (q : ℚ) : String :=
  match decExp q with
  | some k =>
    let m := q.num.natAbs * (10 ^ k / q.den)
    let sign : List Char := if q.num < 0 then ['-'] else []
    if k = 0 then ⟨sign ++ natChars m⟩
    else ⟨sign ++ natChars (m / 10 ^ k) ++ '.' :: padZeros k (natChars (m % 10 ^ k))⟩
  | none => "?"

/-- JavaScript stringification of a cell value, as `Papa.unparse` applies it:
`undefined` becomes the empty field, `NaN` prints as `"NaN"`, numbers print
unformatted. -/

def serialJS : JSVal → String
  | JSVal.undef => ""
  | JSVal.nan => "NaN"
  | JSVal.num q => jsNumToString q

/-- papaparse quoting test: a field is quoted iff it contains the delimiter
`','`, the quote `'"'`, `'\r'`, `'\n'`, or a BOM, or starts or ends with a
space. -/

def csvNeedsQuotes (s : List Char) : Bool :=
  s.any (fun c => c = ',' || c = '"' || c = '\r' || c = '\n' || c = Char.ofNat 0xFEFF) ||
  (match s with | c :: _ => c == ' ' | [] => false) ||
  (match s.getLast? with | some c => c == ' ' | none => false)

/-- papaparse quote escaping: double every embedded quote. -/

def csvEscape (s : List Char) : List Char :=
  s.flatMap (fun c => if c = '"' then ['"', '"'] else [c])

/-- papaparse `safe`: escape and quote a stringified field when needed. -/

def csvSafe (s : String) : String :=
  if csvNeedsQuotes s.data then ⟨'"' :: (csvEscape s.data ++ ['"'])⟩ else s

/-- Join chunks with a separator (the CSV delimiter or line terminator). -/

def joinSep (sep : List Char) : List (List Char) → List Char
  | [] => []
  | [x] => x
  | x :: y :: ys => x ++ sep ++ joinSep sep (y :: ys)

/-- The column names of the export, in `Row` field order: `Papa.unparse`
takes them from the keys of the first row object. -/

def headerFields : List String :=
  ["person", "past12Months", "y2d", "may", "june", "july", "netEarningsPrevMonth"]

/-- The six numeric fields of a row, in column order. -/

def rowValues (r : Row) : List JSVal :=
  [r.past12Months, r.y2d, r.may, r.june, r.july, r.netEarningsPrevMonth]

/-- The stringified cells of a row, in column order. -/

def rowCells (r : Row) : List String :=
  r.person :: (rowValues r).map serialJS

/-- One CSV line of the export: the quoted-as-needed cells joined by the
delimiter. -/

def rowLineChars (r : Row) : List Char :=
  joinSep [','] ((rowCells r).map (fun s => (csvSafe s).data))

/-- `Papa.unparse` on a row list: header line from the first row's keys, then
one line per row, joined by `"\r\n"`; the empty list yields the empty string
(papaparse emits no header when it has no row to take fields from). -/

def papaUnparse (rows : List Row) : String :=
  match rows with
  | [] => ""
  | _ =>
    ⟨joinSep ['\r', '\n']
      (joinSep [','] (headerFields.map (fun s => (csvSafe s).data)) ::
        rows.map rowLineChars)⟩

/-- Mode of the CSV scanner: outside quotes, inside quotes, just after a
quote inside a quoted field, or just after a `'\r'` outside quotes (a
pending line terminator). -/
inductive CsvMode where
  | normal : CsvMode
  | quoted : CsvMode
  | quotedEnd : CsvMode
  | normalCR : CsvMode
  deriving DecidableEq, Repr

/-- State of the CSV scanner: mode, current field (reversed), completed
fields of the current record (reversed), and completed records (reversed). -/
structure CsvScanState where
  mode : CsvMode
  cur : List Char
  fields : List (List Char)
  rows : List (List String)
  deriving DecidableEq, Repr

/-- The fields of a finished record, in order. -/
def rowStrings (cur : List Char) (fields : List (List Char)) : List String :=
  ((cur :: fields).reverse).map (fun f => (⟨f.reverse⟩ : String))

/-- One scanner step outside quotes: `','` separates fields, `'"'` at field
start opens a quoted field, `'\r'` may start a record terminator. -/
def csvScanStepNormal (st : CsvScanState) (c : Char) : CsvScanState :=
  if c = ',' then
    { mode := CsvMode.normal, cur := [], fields := st.cur :: st.fields, rows := st.rows }
  else if c = '"' ∧ st.cur = [] then { st with mode := CsvMode.quoted }
  else if c = '\r' then { st with mode := CsvMode.normalCR }
  else { st with mode := CsvMode.normal, cur := c :: st.cur }

/-- One step of a standard CSV scanner over the whole text.  Quotes are
handled before line terminators: inside a quoted field every character but
`'"'` — a `'\r'` or `'\n'` included — is literal field content; `'""'` is an
escaped quote; `"\r\n"` outside quotes ends the record. -/
def csvScanStep (st : CsvScanState) (c : Char) : CsvScanState :=
  match st.mode with
  | CsvMode.quoted =>
    if c = '"' then { st with mode := CsvMode.quotedEnd }
    else { st with cur := c :: st.cur }
  | CsvMode.quotedEnd =>
    if c = '"' then { st with mode := CsvMode.quoted, cur := '"' :: st.cur }
    else if c = ',' then
      { mode := CsvMode.normal, cur := [], fields := st.cur :: st.fields, rows := st.rows }
    else if c = '\r' then { st with mode := CsvMode.normalCR }
    else { st with mode := CsvMode.normal, cur := c :: st.cur }
  | CsvMode.normalCR =>
    if c = '\n' then
      { mode := CsvMode.normal, cur := [], fields := [],
        rows := rowStrings st.cur st.fields :: st.rows }
    else csvScanStepNormal { st with mode := CsvMode.normal, cur := '\r' :: st.cur } c
  | CsvMode.normal => csvScanStepNormal st c

/-- Close the scanner: a pending lone `'\r'` is literal content, the pending
field and record are the last ones. -/
def csvFinish (st : CsvScanState) : List (List String) :=
  (rowStrings (if st.mode = CsvMode.normalCR then '\r' :: st.cur else st.cur) st.fields ::
    st.rows).reverse

/-- A standard CSV parse of the exported text: a single pass over the
characters with quote handling before line-terminator recognition (so a
quoted field may contain `"\r\n"`); the empty input has no records, as in
papaparse, whose parse of `""` yields empty data. -/
def papaParse (s : String) : List (List String) :=
  if s = "" then []
  else
    csvFinish (s.data.foldl csvScanStep
      { mode := CsvMode.normal, cur := [], fields := [], rows := [] })

/-- Re-interpretation of a parsed CSV field as a value: an empty field is
absent, a field parsing as a number is that number, anything else is the
non-numeric sentinel. -/
def fieldToJS (s : String) : JSVal :=
  if s = "" then JSVal.undef
  else
    match parseFloatJS s with
    | some q => JSVal.num q
    | none => JSVal.nan

/-- A cell value whose number (if any) is a decimal fraction — exactly the
values a printed JS double is: `String(x)` of a finite double is a finite
decimal, and re-parsing it recovers `x`. -/
def goodVal : JSVal → Bool
  | JSVal.num q => (decExp q).isSome
  | _ => true


def valLE : List Nat → Nat
  | [] => 0
  | d :: ds => d + 10 * valLE ds

/-- Concrete row for the round-trip witness: a person name containing the
delimiter, a quote, an embedded `"\r\n"` line break and a trailing space
(so the field is quoted and escaped, and the break is literal content), a
positive and a negative decimal, `NaN`, and absent values. -/
def rDemo : Row :=
  { person := "Jo, \"Li\r\nn\" "
    past12Months := JSVal.num ⟨1, 2, by decide, by decide⟩
    y2d := JSVal.undef
    may := JSVal.num ⟨-33, 100, by decide, by decide⟩
    june := JSVal.nan
    july := JSVal.undef
    netEarningsPrevMonth := JSVal.num ⟨0, 1, by decide, by decide⟩ }

theorem rowActive_iff_activeSpec (r : SourceRecord) :
    rowActive r = true ↔ activeSpec r := by
  cases he : r.employees <;> cases hx : r.externals <;>
    simp [rowActive, activeSpec, he, hx]

theorem buildRow_isSome_of_active (r : SourceRecord) (h : rowActive r = true) :
    (buildRow r).isSome = true := by
  rcases (rowActive_iff_activeSpec r).mp h with ⟨p, hp, _⟩ | ⟨p, hp, _⟩ <;>
    cases he : r.employees <;>
    simp_all [buildRow, Option.orElse]

-- Quick sanity checks of the embedding on concrete values.

/-- C1: `normalize` includes a record in the output iff its `employees` block
has status `"active"` or its `externals` block has status `"active"`
(boolean OR); records where both blocks are absent, or where neither present
block is `"active"`, are excluded — the code's filter predicate coincides
with the spec's selection condition. -/
theorem loadData_selects_iff_active (records : List SourceRecord) :
    loadData records =
      (records.filter (fun r => decide (activeSpec r))).map buildRow := by
  unfold loadData
  congr 1
  apply List.filter_congr
  intro r _
  by_cases h : activeSpec r
  · simp [h, (rowActive_iff_activeSpec r).mpr h]
  · simp [h]
    exact Bool.eq_false_iff.mpr fun hc => h ((rowActive_iff_activeSpec r).mp hc)

/-- C2: the person block used to build a row is chosen by the fixed
precedence `employees ?? externals`: when `employees` is present it is used,
`externals` is used only when `employees` is absent; and a record whose
`employees` block is present with status `"active"` yields exactly the one
row built from that block. -/
theorem person_precedence (r : SourceRecord) (p : PersonBlock) :
    (r.employees = some p → buildRow r = some (rowOfPerson p)) ∧
    (r.employees = none → buildRow r = r.externals.map rowOfPerson) ∧
    (r.employees = some p → p.status = "active" →
      loadData [r] = [some (rowOfPerson p)]) := by
  refine ⟨?_, ?_, ?_⟩
  · intro h
    simp [buildRow, h, Option.orElse]
  · intro h
    simp [buildRow, h, Option.orElse]
  · intro h hs
    simp [loadData, rowActive, h, hs, buildRow, Option.orElse]

/-- Witness for C2 at a concrete record (both blocks present, `employees`
active): the `employees` block wins. -/

theorem person_precedence_witness :
    buildRow { employees := some pJo, externals := some pAna } =
      some (rowOfPerson pJo) ∧
    loadData [{ employees := some pJo, externals := some pAna }] =
      [some (rowOfPerson pJo)] :=
  ⟨(person_precedence { employees := some pJo, externals := some pAna } pJo).1 rfl,
   (person_precedence { employees := some pJo, externals := some pAna } pJo).2.2 rfl rfl⟩

/-- C5: the person string is `firstname ++ " " ++ lastname` (empty string for
an absent lastname, leaving a trailing space), prefixed with `"External "`
exactly when the chosen person block's own `jobType` is `"external"`; the
string depends only on the person block, not on which top-level key held
it. -/

theorem name_construction (p : PersonBlock) (r1 r2 : SourceRecord)
    (h1 : r1.employees = some p) (h2 : r2.employees = none)
    (h3 : r2.externals = some p) :
    (rowOfPerson p).person =
      (if p.jobType = "external" then "External " else "") ++
        (p.firstname ++ " " ++ p.lastname.getD "") ∧
    (buildRow r1).map (fun row => row.person) =
      (buildRow r2).map (fun row => row.person) := by
  constructor
  · by_cases hj : p.jobType = "external" <;>
      simp [rowOfPerson, hj, String.append_assoc]
  · simp [buildRow, h1, h2, h3, Option.orElse]

/-- Witness for C5 at the spec's two concrete persons: an external person
with a lastname formats as `"External Jo Lin"`, and an internal person with
no lastname formats as `"Ana "` (trailing space preserved). -/

theorem name_construction_witness :
    (rowOfPerson pJo).person = "External Jo Lin" ∧
    (rowOfPerson pAna).person = "Ana " := by
  constructor
  · rw [(name_construction pJo { employees := some pJo, externals := none }
      { employees := none, externals := some pJo } rfl rfl rfl).1]
    decide
  · rw [(name_construction pAna { employees := some pAna, externals := none }
      { employees := none, externals := some pAna } rfl rfl rfl).1]
    decide

/-- C6: the month lookup compares month names by exact (case-sensitive)
string equality, returns the parsed rate of the first matching entry of
`lastThreeMonthsIndividually`, and is `undefined` when no entry matches. -/
theorem month_lookup (b : UtilisationBlock) (l : List MonthEntry) (m : String)
    (hl : b.lastThreeMonthsIndividually = some l) :
    ((∀ e ∈ l, e.month ≠ m) → getMonthUtil (some b) m = JSVal.undef) ∧
    (∀ l1 e l2, l = l1 ++ e :: l2 → e.month = m → (∀ x ∈ l1, x.month ≠ m) →
      getMonthUtil (some b) m = parseUtil (some e.utilisationRate)) := by
  constructor
  · intro h
    have hfind : l.find? (fun x => x.month == m) = none := by
      apply List.find?_eq_none.mpr
      intro x hx
      simpa using h x hx
    simp [getMonthUtil, hl, hfind, parseUtil]
  · intro l1 e l2 hsplit he hnone
    have hfind : ∀ (t : List MonthEntry), (∀ x ∈ t, x.month ≠ m) →
        (t ++ e :: l2).find? (fun x => x.month == m) = some e := by
      intro t ht
      induction t with
      | nil => simp [List.find?, he]
      | cons a u ih =>
        have ha : (a.month == m) = false := by
          simpa using ht a (by simp)
        simpa [List.find?, ha] using ih fun x hx => ht x (by simp [hx])
    subst hsplit
    simp [getMonthUtil, hl, hfind l1 hnone]

/-- Witness for C6 at the spec's duplicate-month example: with two `"May"`
entries carrying rates `"0.5"` and `"0.9"`, the lookup returns the first,
`0.5`. -/

theorem month_lookup_witness :
    getMonthUtil (some bDup) "May" = JSVal.num (1 / 2) := by
  rw [(month_lookup bDup
      [{ month := "May", utilisationRate := "0.5" },
       { month := "May", utilisationRate := "0.9" }] "May" rfl).2
    [] { month := "May", utilisationRate := "0.5" }
    [{ month := "May", utilisationRate := "0.9" }] rfl rfl (by simp)]
  simp [parseUtil, parseFloatJS, parseSign, parseExp, wsChar, takeDigits, digitsVal]
  norm_num

/-- C7: normalization filters and maps without reordering — the output is a
sublist of the record-wise image of the input (so selected records keep
their relative order), and normalization distributes over concatenation. -/

theorem output_preserves_order (records xs ys : List SourceRecord) :
    List.Sublist (loadData records) (records.map buildRow) ∧
    loadData (xs ++ ys) = loadData xs ++ loadData ys := by
  constructor
  · exact (List.filter_sublist records).map buildRow
  · simp [loadData, List.filter_append]

/-- C10: every record passing the selection filter has at least one person
block present, so the chosen block `employees ?? externals` is defined and
the unguarded accesses `personData.firstname` / `personData.lastname` never
dereference `undefined`: every element of the output is a real row. -/

theorem no_undefined_dereference (records : List SourceRecord) :
    (loadData records).all Option.isSome = true := by
  rw [List.all_eq_true]
  intro x hx
  obtain ⟨r, hr, rfl⟩ := List.mem_map.mp hx
  exact buildRow_isSome_of_active r (List.of_mem_filter hr)

/-- C3 counterexample: for a selected record whose `monthlyCostDifference`
is the unparseable string `"abc"`, `netEarningsPrevMonth` is `NaN`, not `0` —
`?? 0` coalesces only `undefined`/`null`, never `NaN`. -/
theorem net_earnings_unparseable_counterexample :
    rowActive rBad = true ∧
    loadData [rBad] = [some (rowOfPerson pBad)] ∧
    (rowOfPerson pBad).netEarningsPrevMonth = JSVal.nan ∧
    JSVal.nan ≠ JSVal.num 0 := by
  refine ⟨rfl, rfl, rfl, by simp⟩

/-- C3 (amended): `netEarningsPrevMonth` is never `undefined`: it is `0`
when `monthlyCostDifference` is absent, the parsed value when the string
parses, but `NaN` (not `0`) when the string is present and unparseable. -/

theorem net_earnings_amended (p : PersonBlock) :
    (rowOfPerson p).netEarningsPrevMonth ≠ JSVal.undef ∧
    (p.workforceUtilisation.bind (fun u => u.monthlyCostDifference) = none →
      (rowOfPerson p).netEarningsPrevMonth = JSVal.num 0) ∧
    (∀ s, p.workforceUtilisation.bind (fun u => u.monthlyCostDifference) = some s →
      parseFloatJS s = none → (rowOfPerson p).netEarningsPrevMonth = JSVal.nan) ∧
    (∀ s q, p.workforceUtilisation.bind (fun u => u.monthlyCostDifference) = some s →
      parseFloatJS s = some q → (rowOfPerson p).netEarningsPrevMonth = JSVal.num q) := by
  refine ⟨?_, ?_, ?_, ?_⟩
  · cases hm : p.workforceUtilisation.bind (fun u => u.monthlyCostDifference) with
    | none => simp [rowOfPerson, hm, parseUtil, nullish]
    | some s =>
      cases hp : parseFloatJS s with
      | none => simp [rowOfPerson, hm, parseUtil, hp, nullish]
      | some q => simp [rowOfPerson, hm, parseUtil, hp, nullish]
  · intro hm
    simp [rowOfPerson, hm, parseUtil, nullish]
  · intro s hm hp
    simp [rowOfPerson, hm, parseUtil, hp, nullish]
  · intro s q hm hp
    simp [rowOfPerson, hm, parseUtil, hp, nullish]

/-- Witness for C3 (amended) at concrete persons: absent cost difference
gives `0`, unparseable cost difference gives `NaN`. -/

theorem net_earnings_amended_witness :
    (rowOfPerson pAna).netEarningsPrevMonth = JSVal.num 0 ∧
    (rowOfPerson pBad).netEarningsPrevMonth = JSVal.nan :=
  ⟨(net_earnings_amended pAna).2.1 rfl,
   (net_earnings_amended pBad).2.2.1 "abc" rfl (by decide)⟩

/-- C4 counterexample: a malformed numeric string parses to `NaN`, which is
distinct from `undefined` (downstream the two differ: `undefined` serializes
empty, `NaN` serializes as `"NaN"`). -/

theorem parse_malformed_counterexample :
    parseUtil (some "abc") = JSVal.nan ∧ JSVal.nan ≠ JSVal.undef := by
  exact ⟨by decide, by simp⟩

/-- C4 (amended): a well-formed decimal string parses to its value, an
absent input yields `undefined`, a malformed string yields the non-numeric
sentinel `NaN` (not `undefined`), and the normalization pass is total: it
never aborts, producing exactly one (defined) row per selected record. -/

theorem parse_utility_amended (records : List SourceRecord) :
    parseUtil (some "12.5") = JSVal.num (25 / 2) ∧
    parseUtil none = JSVal.undef ∧
    (∀ s, parseFloatJS s = none → parseUtil (some s) = JSVal.nan) ∧
    (loadData records).length = (records.filter rowActive).length ∧
    (∀ x ∈ loadData records, x.isSome = true) := by
  refine ⟨?_, rfl, ?_, ?_, ?_⟩
  · simp [parseUtil, parseFloatJS, parseSign, parseExp, wsChar, takeDigits, digitsVal]
    norm_num
  · intro s h
    simp [parseUtil, h]
  · simp [loadData]
  · intro x hx
    obtain ⟨r, hr, rfl⟩ := List.mem_map.mp hx
    exact buildRow_isSome_of_active r (List.of_mem_filter hr)

/-- Witness for C4 (amended) at concrete inputs: `"abc"` parses to `NaN` and
the record carrying it still yields exactly one defined row. -/

theorem parse_utility_amended_witness :
    parseUtil (some "abc") = JSVal.nan ∧ (loadData [rBad]).length = 1 := by
  refine ⟨(parse_utility_amended []).2.2.1 "abc" (by decide), ?_⟩
  exact ((parse_utility_amended [rBad]).2.2.2.1).trans (by decide)

theorem valLE_natDigitsLE (fuel : Nat) : ∀ n, n ≤ fuel →
    valLE (natDigitsLE fuel n) = n := by
  induction fuel with
  | zero =>
    intro n h
    interval_cases n
    simp [natDigitsLE, valLE]
  | succ fuel ih =>
    intro n h
    by_cases hn : n = 0
    · simp [natDigitsLE, hn, valLE]
    · have hdiv : n / 10 ≤ fuel := by
        have := Nat.div_lt_self (Nat.pos_of_ne_zero hn) (show 1 < 10 by norm_num)
        omega
      simp only [natDigitsLE, hn, if_false, valLE, ih _ hdiv]
      omega

theorem natDigitsLE_lt (fuel : Nat) : ∀ n, ∀ d ∈ natDigitsLE fuel n, d < 10 := by
  induction fuel with
  | zero => simp [natDigitsLE]
  | succ fuel ih =>
    intro n d hd
    by_cases hn : n = 0
    · simp [natDigitsLE, hn] at hd
    · simp only [natDigitsLE, hn, if_false, List.mem_cons] at hd
      rcases hd with rfl | hd
      · exact Nat.mod_lt _ (by norm_num)
      · exact ih _ d hd

theorem natDigitsLE_length (fuel : Nat) : ∀ n k, n ≤ fuel → n < 10 ^ k →
    (natDigitsLE fuel n).length ≤ k := by
  induction fuel with
  | zero => simp [natDigitsLE]
  | succ fuel ih =>
    intro n k hf h
    by_cases hn : n = 0
    · simp [natDigitsLE, hn]
    · cases k with
      | zero =>
        simp only [pow_zero, Nat.lt_one_iff] at h
        exact absurd h hn
      | succ k =>
        have h1 : n / 10 ≤ fuel := by
          have := Nat.div_lt_self (Nat.pos_of_ne_zero hn) (show 1 < 10 by norm_num)
          omega
        have h2 : n / 10 < 10 ^ k := by
          rw [Nat.div_lt_iff_lt_mul (by norm_num)]
          calc n < 10 ^ (k + 1) := h
          _ = 10 ^ k * 10 := by ring
        simp only [natDigitsLE, hn, if_false, List.length_cons]
        exact Nat.succ_le_succ (ih _ _ h1 h2)

theorem digitChar_isDigit (d : Nat) (h : d < 10) : (digitChar d).isDigit = true := by
  interval_cases d <;> decide

theorem digitChar_toNat (d : Nat) (h : d < 10) : (digitChar d).toNat - 48 = d := by
  interval_cases d <;> decide

theorem digitsVal_rev_map (ds : List Nat) (hds : ∀ d ∈ ds, d < 10) : ∀ a : Nat,
    ((ds.map digitChar).reverse).foldl (fun x c => 10 * x + (c.toNat - 48)) a =
      a * 10 ^ ds.length + valLE ds := by
  induction ds with
  | nil => simp [valLE]
  | cons d t ih =>
    intro a
    simp only [List.map_cons, List.reverse_cons, List.foldl_append, List.foldl_cons,
      List.foldl_nil]
    rw [ih (fun x hx => hds x (List.mem_cons_of_mem _ hx)) a,
      digitChar_toNat d (hds d (List.mem_cons_self _ _))]
    simp only [valLE, List.length_cons]
    ring

theorem digitsVal_natChars (n : Nat) : digitsVal (natChars n) = n := by
  by_cases hn : n = 0
  · subst hn
    decide
  · unfold natChars digitsVal
    rw [if_neg hn,
      digitsVal_rev_map (natDigitsLE n n) (natDigitsLE_lt n n) 0,
      valLE_natDigitsLE n n le_rfl]
    simp

theorem natChars_ne_nil (n : Nat) : natChars n ≠ [] := by
  by_cases hn : n = 0
  · simp [natChars, hn]
  · obtain ⟨m, rfl⟩ := Nat.exists_eq_succ_of_ne_zero hn
    simp [natChars, natDigitsLE]

theorem natChars_isDigit (n : Nat) : ∀ c ∈ natChars n, c.isDigit = true := by
  intro c hc
  by_cases hn : n = 0
  · simp [natChars, hn] at hc
    subst hc
    decide
  · simp only [natChars, hn, if_false, List.mem_reverse, List.mem_map] at hc
    obtain ⟨d, hd, rfl⟩ := hc
    exact digitChar_isDigit d (natDigitsLE_lt n n d hd)

theorem natChars_length_le (n k : Nat) (h : n < 10 ^ k) (hk : 0 < k) :
    (natChars n).length ≤ k := by
  by_cases hn : n = 0
  · simp [natChars, hn]
    omega
  · simp only [natChars, hn, if_false, List.length_reverse, List.length_map]
    exact natDigitsLE_length n n k le_rfl h

theorem padZeros_isDigit (k : Nat) (ds : List Char) (h : ∀ c ∈ ds, c.isDigit = true) :
    ∀ c ∈ padZeros k ds, c.isDigit = true := by
  intro c hc
  rcases List.mem_append.mp hc with hc | hc
  · rw [List.eq_of_mem_replicate hc]
    decide
  · exact h c hc

theorem padZeros_length (k : Nat) (ds : List Char) (h : ds.length ≤ k) :
    (padZeros k ds).length = k := by
  simp [padZeros]
  omega

theorem digitsVal_padZeros (k : Nat) (ds : List Char) :
    digitsVal (padZeros k ds) = digitsVal ds := by
  unfold padZeros digitsVal
  rw [List.foldl_append]
  congr 1
  induction (k - ds.length) with
  | zero => simp
  | succ j ih => simpa [List.replicate_succ] using ih

theorem takeDigits_append (ds rest : List Char) (hds : ∀ c ∈ ds, c.isDigit = true)
    (hrest : ∀ c, rest.head? = some c → c.isDigit = false) :
    takeDigits (ds ++ rest) = (ds, rest) := by
  induction ds with
  | nil =>
    cases rest with
    | nil => simp [takeDigits]
    | cons c t =>
      have := hrest c rfl
      simp [takeDigits, this]
  | cons c t ih =>
    have hc := hds c (List.mem_cons_self _ _)
    simp [takeDigits, hc, ih (fun x hx => hds x (List.mem_cons_of_mem _ hx))]

theorem digit_not_ws (c : Char) (h : c.isDigit = true) : wsChar c = false := by
  by_contra hw
  simp only [wsChar, Bool.not_eq_false, Bool.or_eq_true, decide_eq_true_eq] at hw
  rcases hw with ((rfl | rfl) | rfl) | rfl <;> exact absurd h (by decide)

theorem parseSign_of_digit (c : Char) (r : List Char) (h : c.isDigit = true) :
    parseSign (c :: r) = (1, c :: r) := by
  have h1 : c ≠ '-' := by rintro rfl; exact absurd h (by decide)
  have h2 : c ≠ '+' := by rintro rfl; exact absurd h (by decide)
  unfold parseSign
  split
  · rename_i heq
    rw [List.cons.injEq] at heq
    exact absurd heq.1 h1
  · rename_i heq
    rw [List.cons.injEq] at heq
    exact absurd heq.1 h2
  · rfl

theorem dropWhile_ws_of_digit (ds : List Char) (hne : ds ≠ [])
    (hds : ∀ c ∈ ds, c.isDigit = true) (rest : List Char) :
    (ds ++ rest).dropWhile wsChar = ds ++ rest := by
  cases ds with
  | nil => exact absurd rfl hne
  | cons c t =>
    have := digit_not_ws c (hds c (List.mem_cons_self _ _))
    simp [List.dropWhile_cons, this]

theorem parseFloatJS_int_pos (ids : List Char) (hne : ids ≠ [])
    (hds : ∀ c ∈ ids, c.isDigit = true) :
    parseFloatJS ⟨ids⟩ = some (digitsVal ids : ℚ) := by
  have htd : takeDigits ids = (ids, []) := by
    simpa using takeDigits_append ids [] hds (by intro x hx; simp at hx)
  obtain ⟨c, t, rfl⟩ := List.exists_cons_of_ne_nil hne
  have hc := hds c (List.mem_cons_self _ _)
  simp only [parseFloatJS, List.dropWhile_cons, digit_not_ws c hc,
    Bool.false_eq_true, if_false, parseSign_of_digit c t hc, htd]
  simp [parseExp]
  rfl

theorem parseFloatJS_int_neg (ids : List Char) (hne : ids ≠ [])
    (hds : ∀ c ∈ ids, c.isDigit = true) :
    parseFloatJS ⟨'-' :: ids⟩ = some (-(digitsVal ids : ℚ)) := by
  have htd : takeDigits ids = (ids, []) := by
    simpa using takeDigits_append ids [] hds (by intro x hx; simp at hx)
  obtain ⟨c, t, rfl⟩ := List.exists_cons_of_ne_nil hne
  simp only [parseFloatJS, List.dropWhile_cons, show wsChar '-' = false from by decide,
    Bool.false_eq_true, if_false,
    show parseSign ('-' :: c :: t) = ((-1 : ℚ), c :: t) from rfl, htd]
  simp [parseExp]
  rfl

theorem parseFloatJS_frac_pos (ids fds : List Char) (hne : ids ≠ [])
    (hids : ∀ c ∈ ids, c.isDigit = true) (hfds : ∀ c ∈ fds, c.isDigit = true) :
    parseFloatJS ⟨ids ++ '.' :: fds⟩ =
      some ((digitsVal ids : ℚ) + (digitsVal fds : ℚ) / 10 ^ fds.length) := by
  have htd1 : takeDigits (ids ++ '.' :: fds) = (ids, '.' :: fds) :=
    takeDigits_append ids ('.' :: fds) hids
      (by intro x hx; simp at hx; subst hx; decide)
  have htd2 : takeDigits fds = (fds, []) := by
    simpa using takeDigits_append fds [] hfds (by intro x hx; simp at hx)
  obtain ⟨c, t, rfl⟩ := List.exists_cons_of_ne_nil hne
  have hc := hids c (List.mem_cons_self _ _)
  simp only [List.cons_append] at htd1
  show parseFloatJS ⟨c :: (t ++ '.' :: fds)⟩ = _
  simp only [parseFloatJS, List.dropWhile_cons, digit_not_ws c hc,
    Bool.false_eq_true, if_false, parseSign_of_digit c (t ++ '.' :: fds) hc, htd1, htd2]
  simp [parseExp]

theorem parseFloatJS_frac_neg (ids fds : List Char) (hne : ids ≠ [])
    (hids : ∀ c ∈ ids, c.isDigit = true) (hfds : ∀ c ∈ fds, c.isDigit = true) :
    parseFloatJS ⟨'-' :: (ids ++ '.' :: fds)⟩ =
      some (-((digitsVal ids : ℚ) + (digitsVal fds : ℚ) / 10 ^ fds.length)) := by
  have htd1 : takeDigits (ids ++ '.' :: fds) = (ids, '.' :: fds) :=
    takeDigits_append ids ('.' :: fds) hids
      (by intro x hx; simp at hx; subst hx; decide)
  have htd2 : takeDigits fds = (fds, []) := by
    simpa using takeDigits_append fds [] hfds (by intro x hx; simp at hx)
  obtain ⟨c, t, rfl⟩ := List.exists_cons_of_ne_nil hne
  simp only [List.cons_append] at htd1
  show parseFloatJS ⟨'-' :: c :: (t ++ '.' :: fds)⟩ = _
  simp only [parseFloatJS, List.dropWhile_cons, show wsChar '-' = false from by decide,
    Bool.false_eq_true, if_false,
    show parseSign ('-' :: c :: (t ++ '.' :: fds)) = ((-1 : ℚ), c :: (t ++ '.' :: fds)) from rfl,
    htd1, htd2]
  simp [parseExp]

theorem div_add_mod_cast (m p : Nat) (hp : 0 < p) :
    ((m / p : Nat) : ℚ) + ((m % p : Nat) : ℚ) / (p : ℚ) = (m : ℚ) / (p : ℚ) := by
  have h := Nat.div_add_mod m p
  have hp0 : (p : ℚ) ≠ 0 := by positivity
  field_simp
  rw [mul_comm (((m / p : Nat) : ℚ)) (p : ℚ)]
  exact_mod_cast h

theorem parseFloatJS_jsNumToString (q : ℚ) (hq : (decExp q).isSome = true) :
    parseFloatJS (jsNumToString q) = some q := by
  obtain ⟨k, hk⟩ := Option.isSome_iff_exists.mp hq
  have hk' : (List.range 400).find? (fun j => decide (10 ^ j % q.den = 0)) = some k := hk
  have hfind := List.find?_some hk'
  have hmod : 10 ^ k % q.den = 0 := by
    simp only [decide_eq_true_eq] at hfind
    exact hfind
  have hdvd : q.den ∣ 10 ^ k := Nat.dvd_of_mod_eq_zero hmod
  have hden0 : (q.den : ℚ) ≠ 0 := Nat.cast_ne_zero.mpr q.den_nz
  have hscale : 10 ^ k / q.den * q.den = 10 ^ k := Nat.div_mul_cancel hdvd
  have habs : ((q.num.natAbs * (10 ^ k / q.den) : Nat) : ℚ) / ((10 ^ k : Nat) : ℚ) =
      (q.num.natAbs : ℚ) / q.den := by
    rw [div_eq_div_iff (by positivity) hden0]
    have h2 : q.num.natAbs * (10 ^ k / q.den) * q.den = q.num.natAbs * 10 ^ k := by
      rw [mul_assoc, hscale]
    exact_mod_cast congrArg (fun n : Nat => (n : ℚ)) h2
  have hsigned : ∀ s : ℚ, (¬ q.num < 0 → s = 1) → (q.num < 0 → s = -1) →
      s * ((q.num.natAbs : ℚ) / q.den) = q := by
    intro s hpos hneg
    by_cases hn : q.num < 0
    · have h2 : ((q.num.natAbs : ℕ) : ℚ) = -(q.num : ℚ) := by
        rw [Int.cast_natAbs]
        exact_mod_cast abs_of_neg hn
      calc s * ((q.num.natAbs : ℚ) / q.den) = -1 * (-(q.num : ℚ) / q.den) := by
            rw [hneg hn, h2]
        _ = (q.num : ℚ) / q.den := by ring
        _ = q := Rat.num_div_den q
    · have h2 : ((q.num.natAbs : ℕ) : ℚ) = (q.num : ℚ) := by
        rw [Int.cast_natAbs]
        exact_mod_cast abs_of_nonneg (not_lt.mp hn)
      calc s * ((q.num.natAbs : ℚ) / q.den) = 1 * ((q.num : ℚ) / q.den) := by
            rw [hpos hn, h2]
        _ = (q.num : ℚ) / q.den := by ring
        _ = q := Rat.num_div_den q
  have hstr : jsNumToString q =
      (if k = 0 then
        (⟨(if q.num < 0 then ['-'] else []) ++
          natChars (q.num.natAbs * (10 ^ k / q.den))⟩ : String)
      else
        ⟨(if q.num < 0 then ['-'] else []) ++
          natChars (q.num.natAbs * (10 ^ k / q.den) / 10 ^ k) ++
          '.' :: padZeros k (natChars (q.num.natAbs * (10 ^ k / q.den) % 10 ^ k))⟩) := by
    unfold jsNumToString
    rw [hk]
  set m := q.num.natAbs * (10 ^ k / q.den) with hm
  by_cases hk0 : k = 0
  · subst hk0
    have hmq : (m : ℚ) = (q.num.natAbs : ℚ) / q.den := by
      have := habs
      simpa using this
    rw [hstr, if_pos rfl]
    by_cases hn : q.num < 0
    · rw [if_pos hn, List.singleton_append,
        parseFloatJS_int_neg (natChars m) (natChars_ne_nil m) (natChars_isDigit m),
        digitsVal_natChars, hmq]
      refine congrArg some ?_
      have := hsigned (-1) (fun h => absurd hn h) (fun _ => rfl)
      calc -((q.num.natAbs : ℚ) / q.den) = -1 * ((q.num.natAbs : ℚ) / q.den) := by ring
        _ = q := this
    · rw [if_neg hn, List.nil_append,
        parseFloatJS_int_pos (natChars m) (natChars_ne_nil m) (natChars_isDigit m),
        digitsVal_natChars, hmq]
      refine congrArg some ?_
      have := hsigned 1 (fun _ => rfl) (fun h => absurd h hn)
      rw [one_mul] at this
      exact this
  · have hkpos : 0 < k := Nat.pos_of_ne_zero hk0
    have hlen : (padZeros k (natChars (m % 10 ^ k))).length = k :=
      padZeros_length k _ (natChars_length_le _ k
        (Nat.mod_lt _ (Nat.pos_pow_of_pos k (by norm_num))) hkpos)
    have hdig : ∀ c ∈ padZeros k (natChars (m % 10 ^ k)), c.isDigit = true :=
      padZeros_isDigit k _ (natChars_isDigit _)
    have hval : ((digitsVal (natChars (m / 10 ^ k)) : ℚ) +
        (digitsVal (padZeros k (natChars (m % 10 ^ k))) : ℚ) /
          10 ^ (padZeros k (natChars (m % 10 ^ k))).length) =
        (q.num.natAbs : ℚ) / q.den := by
      rw [digitsVal_natChars, digitsVal_padZeros, digitsVal_natChars, hlen, ← habs]
      have hc : ((10 ^ k : Nat) : ℚ) = (10 : ℚ) ^ k := by push_cast; ring
      rw [← hc]
      exact div_add_mod_cast m (10 ^ k) (Nat.pos_pow_of_pos k (by norm_num))
    rw [hstr, if_neg hk0]
    by_cases hn : q.num < 0
    · rw [if_pos hn]
      have harr : (['-'] ++ natChars (m / 10 ^ k) ++
          '.' :: padZeros k (natChars (m % 10 ^ k))) =
          '-' :: (natChars (m / 10 ^ k) ++ '.' :: padZeros k (natChars (m % 10 ^ k))) := by
        simp
      rw [show (⟨['-'] ++ natChars (m / 10 ^ k) ++
          '.' :: padZeros k (natChars (m % 10 ^ k))⟩ : String) =
          ⟨'-' :: (natChars (m / 10 ^ k) ++ '.' :: padZeros k (natChars (m % 10 ^ k)))⟩ from
          congrArg _ harr,
        parseFloatJS_frac_neg _ _ (natChars_ne_nil _) (natChars_isDigit _) hdig, hval]
      exact congrArg some (by
        have := hsigned (-1) (fun h => absurd hn h) (fun _ => rfl)
        calc -((q.num.natAbs : ℚ) / q.den) = -1 * ((q.num.natAbs : ℚ) / q.den) := by ring
          _ = q := this)
    · rw [if_neg hn]
      have harr : (([] : List Char) ++ natChars (m / 10 ^ k) ++
          '.' :: padZeros k (natChars (m % 10 ^ k))) =
          natChars (m / 10 ^ k) ++ '.' :: padZeros k (natChars (m % 10 ^ k)) := by
        simp
      rw [show (⟨([] : List Char) ++ natChars (m / 10 ^ k) ++
          '.' :: padZeros k (natChars (m % 10 ^ k))⟩ : String) =
          ⟨natChars (m / 10 ^ k) ++ '.' :: padZeros k (natChars (m % 10 ^ k))⟩ from
          congrArg _ harr,
        parseFloatJS_frac_pos _ _ (natChars_ne_nil _) (natChars_isDigit _) hdig, hval]
      exact congrArg some (by
        have := hsigned 1 (fun _ => rfl) (fun h => absurd h hn)
        rw [one_mul] at this
        exact this)

theorem not_needsQuotes_chars (s : List Char) (h : csvNeedsQuotes s = false) :
    ∀ c ∈ s, c ≠ ',' ∧ c ≠ '"' ∧ c ≠ '\r' := by
  intro c hc
  simp only [csvNeedsQuotes, Bool.or_eq_false_iff] at h
  have hany := h.1.1
  rw [List.any_eq_false] at hany
  have := hany c hc
  refine ⟨fun hcc => ?_, fun hcc => ?_, fun hcc => ?_⟩ <;> subst hcc <;> simp at this

theorem csvScanStep_plain (fs : List Char)
    (hfs : ∀ c ∈ fs, c ≠ ',' ∧ c ≠ '"' ∧ c ≠ '\r') :
    ∀ cur fields rows, fs.foldl csvScanStep ⟨CsvMode.normal, cur, fields, rows⟩ =
      ⟨CsvMode.normal, fs.reverse ++ cur, fields, rows⟩ := by
  induction fs with
  | nil => intro cur fields rows; rfl
  | cons c t ih =>
    intro cur fields rows
    obtain ⟨h1, h2, h3⟩ := hfs c (List.mem_cons_self _ _)
    have hstep : csvScanStep ⟨CsvMode.normal, cur, fields, rows⟩ c =
        ⟨CsvMode.normal, c :: cur, fields, rows⟩ := by
      simp [csvScanStep, csvScanStepNormal, h1, h2, h3]
    rw [List.foldl_cons, hstep, ih (fun x hx => hfs x (List.mem_cons_of_mem _ hx))]
    simp

theorem csvScanStep_quoted (cs : List Char) :
    ∀ cur fields rows, (csvEscape cs).foldl csvScanStep ⟨CsvMode.quoted, cur, fields, rows⟩ =
      ⟨CsvMode.quoted, cs.reverse ++ cur, fields, rows⟩ := by
  induction cs with
  | nil => intro cur fields rows; rfl
  | cons c t ih =>
    intro cur fields rows
    by_cases hc : c = '"'
    · subst hc
      have he : csvEscape ('"' :: t) = '"' :: '"' :: csvEscape t := by
        simp [csvEscape]
      rw [he, List.foldl_cons, List.foldl_cons]
      have s1 : csvScanStep ⟨CsvMode.quoted, cur, fields, rows⟩ '"' =
          ⟨CsvMode.quotedEnd, cur, fields, rows⟩ := by simp [csvScanStep]
      have s2 : csvScanStep ⟨CsvMode.quotedEnd, cur, fields, rows⟩ '"' =
          ⟨CsvMode.quoted, '"' :: cur, fields, rows⟩ := by simp [csvScanStep]
      rw [s1, s2, ih]
      simp
    · have he : csvEscape (c :: t) = c :: csvEscape t := by
        simp [csvEscape, hc]
      have s1 : csvScanStep ⟨CsvMode.quoted, cur, fields, rows⟩ c =
          ⟨CsvMode.quoted, c :: cur, fields, rows⟩ := by simp [csvScanStep, hc]
      rw [he, List.foldl_cons, s1, ih]
      simp

theorem csvSafe_scan (f : String) (fields : List (List Char))
    (rows : List (List String)) :
    ((csvSafe f).data).foldl csvScanStep ⟨CsvMode.normal, [], fields, rows⟩ =
      ⟨if csvNeedsQuotes f.data then CsvMode.quotedEnd else CsvMode.normal,
        f.data.reverse, fields, rows⟩ := by
  unfold csvSafe
  by_cases hq : csvNeedsQuotes f.data
  · rw [if_pos hq, if_pos hq]
    show ('"' :: (csvEscape f.data ++ ['"'])).foldl csvScanStep
        ⟨CsvMode.normal, [], fields, rows⟩ = _
    rw [List.foldl_cons]
    have s0 : csvScanStep ⟨CsvMode.normal, [], fields, rows⟩ '"' =
        ⟨CsvMode.quoted, [], fields, rows⟩ := by
      simp [csvScanStep, csvScanStepNormal]
    rw [s0, List.foldl_append, csvScanStep_quoted]
    simp [csvScanStep]
  · rw [if_neg hq, if_neg hq]
    have := csvScanStep_plain f.data
      (not_needsQuotes_chars f.data (by simpa using hq)) [] fields rows
    simpa using this

theorem crlf_steps (md : CsvMode) (hmd : md = CsvMode.normal ∨ md = CsvMode.quotedEnd)
    (cur : List Char) (fields : List (List Char)) (rows : List (List String)) :
    csvScanStep (csvScanStep ⟨md, cur, fields, rows⟩ '\r') '\n' =
      ⟨CsvMode.normal, [], [], rowStrings cur fields :: rows⟩ := by
  rcases hmd with rfl | rfl <;>
    simp [csvScanStep, csvScanStepNormal]

theorem comma_step (md : CsvMode) (hmd : md = CsvMode.normal ∨ md = CsvMode.quotedEnd)
    (cur : List Char) (fields : List (List Char)) (rows : List (List String)) :
    csvScanStep ⟨md, cur, fields, rows⟩ ',' =
      ⟨CsvMode.normal, [], cur :: fields, rows⟩ := by
  rcases hmd with rfl | rfl <;>
    simp [csvScanStep, csvScanStepNormal]

theorem scan_row_cont (fs : List String) : ∀ (f : String) (fields0 : List (List Char))
    (rows0 : List (List String)) (rest : List Char),
    (joinSep [','] ((f :: fs).map (fun s => (csvSafe s).data)) ++ '\r' :: '\n' :: rest).foldl
      csvScanStep ⟨CsvMode.normal, [], fields0, rows0⟩ =
      rest.foldl csvScanStep ⟨CsvMode.normal, [], [],
        ((fields0.reverse.map (fun g => (⟨g.reverse⟩ : String))) ++ f :: fs) :: rows0⟩ := by
  induction fs with
  | nil =>
    intro f fields0 rows0 rest
    rw [show joinSep [','] ([f].map (fun s => (csvSafe s).data)) = (csvSafe f).data from rfl,
      List.foldl_append, csvSafe_scan, List.foldl_cons, List.foldl_cons,
      show ∀ st : CsvScanState, csvScanStep (csvScanStep st '\r') '\n' =
        csvScanStep (csvScanStep st '\r') '\n' from fun _ => rfl]
    rw [show csvScanStep (csvScanStep
        ⟨if csvNeedsQuotes f.data then CsvMode.quotedEnd else CsvMode.normal,
          f.data.reverse, fields0, rows0⟩ '\r') '\n' =
        ⟨CsvMode.normal, [], [], rowStrings f.data.reverse fields0 :: rows0⟩ from
      crlf_steps _ (by by_cases hq : csvNeedsQuotes f.data <;> simp [hq]) _ _ _]
    congr 2
    unfold rowStrings
    simp

  | cons g gs ih =>
    intro f fields0 rows0 rest
    rw [show joinSep [','] (((f :: g :: gs)).map (fun s => (csvSafe s).data)) =
        (csvSafe f).data ++ [','] ++
          joinSep [','] ((g :: gs).map (fun s => (csvSafe s).data)) from rfl]
    rw [List.append_assoc, List.append_assoc, List.foldl_append, csvSafe_scan]
    rw [show ([','] ++ (joinSep [','] ((g :: gs).map (fun s => (csvSafe s).data)) ++
        '\r' :: '\n' :: rest)) = ',' :: (joinSep [','] ((g :: gs).map
          (fun s => (csvSafe s).data)) ++ '\r' :: '\n' :: rest) from rfl]
    rw [List.foldl_cons,
      comma_step _ (by by_cases hq : csvNeedsQuotes f.data <;> simp [hq]) _ _ _,
      ih g (f.data.reverse :: fields0) rows0 rest]
    congr 2
    simp

theorem scan_row_last (fs : List String) : ∀ (f : String) (fields0 : List (List Char))
    (rows0 : List (List String)),
    csvFinish ((joinSep [','] ((f :: fs).map (fun s => (csvSafe s).data))).foldl
      csvScanStep ⟨CsvMode.normal, [], fields0, rows0⟩) =
      rows0.reverse ++ [(fields0.reverse.map (fun g => (⟨g.reverse⟩ : String))) ++ f :: fs] := by
  induction fs with
  | nil =>
    intro f fields0 rows0
    rw [show joinSep [','] ([f].map (fun s => (csvSafe s).data)) = (csvSafe f).data from rfl,
      csvSafe_scan]
    unfold csvFinish rowStrings
    by_cases hq : csvNeedsQuotes f.data <;> simp [hq]
  | cons g gs ih =>
    intro f fields0 rows0
    rw [show joinSep [','] (((f :: g :: gs)).map (fun s => (csvSafe s).data)) =
        (csvSafe f).data ++ [','] ++
          joinSep [','] ((g :: gs).map (fun s => (csvSafe s).data)) from rfl]
    rw [List.append_assoc, List.foldl_append, csvSafe_scan]
    rw [show ([','] ++ joinSep [','] ((g :: gs).map (fun s => (csvSafe s).data))) =
        ',' :: joinSep [','] ((g :: gs).map (fun s => (csvSafe s).data)) from rfl]
    rw [List.foldl_cons,
      comma_step _ (by by_cases hq : csvNeedsQuotes f.data <;> simp [hq]) _ _ _,
      ih g (f.data.reverse :: fields0) rows0]
    congr 2
    simp

theorem scan_lines (crs : List (List String)) (h : ∀ cr ∈ crs, cr ≠ []) :
    ∀ rows0 : List (List String), crs ≠ [] →
    csvFinish ((joinSep ['\r', '\n']
        (crs.map (fun cr => joinSep [','] (cr.map (fun s => (csvSafe s).data))))).foldl
      csvScanStep ⟨CsvMode.normal, [], [], rows0⟩) =
      rows0.reverse ++ crs := by
  induction crs with
  | nil => intro rows0 h0; exact absurd rfl h0
  | cons cr crs' ih =>
    intro rows0 _
    obtain ⟨f, fs, rfl⟩ := List.exists_cons_of_ne_nil (h cr (List.mem_cons_self _ _))
    cases crs' with
    | nil =>
      rw [show joinSep ['\r', '\n'] ([f :: fs].map (fun cr =>
          joinSep [','] (cr.map (fun s => (csvSafe s).data)))) =
          joinSep [','] ((f :: fs).map (fun s => (csvSafe s).data)) from rfl]
      rw [scan_row_last fs f [] rows0]
      simp
    | cons cr2 crs'' =>
      rw [show joinSep ['\r', '\n'] (((f :: fs) :: cr2 :: crs'').map (fun cr =>
          joinSep [','] (cr.map (fun s => (csvSafe s).data)))) =
          joinSep [','] ((f :: fs).map (fun s => (csvSafe s).data)) ++ ['\r', '\n'] ++
            joinSep ['\r', '\n'] ((cr2 :: crs'').map (fun cr =>
              joinSep [','] (cr.map (fun s => (csvSafe s).data)))) from rfl]
      rw [List.append_assoc]
      rw [show (['\r', '\n'] ++ joinSep ['\r', '\n'] ((cr2 :: crs'').map (fun cr =>
          joinSep [','] (cr.map (fun s => (csvSafe s).data))))) =
          '\r' :: '\n' :: joinSep ['\r', '\n'] ((cr2 :: crs'').map (fun cr =>
            joinSep [','] (cr.map (fun s => (csvSafe s).data)))) from rfl]
      rw [scan_row_cont fs f [] rows0]
      rw [ih (fun x hx => h x (List.mem_cons_of_mem _ hx)) _ (List.cons_ne_nil _ _)]
      simp

theorem stringData_mk (l : List Char) : (⟨l⟩ : String).data = l := rfl

theorem jsNumToString_chars (q : ℚ) :
    ∀ c ∈ (jsNumToString q).data, c.isDigit = true ∨ c = '-' ∨ c = '.' ∨ c = '?' := by
  intro c hc
  cases hk : decExp q with
  | none =>
    have hstr : jsNumToString q = "?" := by
      unfold jsNumToString
      rw [hk]
    rw [hstr] at hc
    simp only [show ("?" : String).data = ['?'] from rfl, List.mem_singleton] at hc
    subst hc
    right; right; right; rfl
  | some k =>
    have hstr : jsNumToString q =
        (if k = 0 then
          (⟨(if q.num < 0 then ['-'] else []) ++
            natChars (q.num.natAbs * (10 ^ k / q.den))⟩ : String)
        else
          ⟨(if q.num < 0 then ['-'] else []) ++
            natChars (q.num.natAbs * (10 ^ k / q.den) / 10 ^ k) ++
            '.' :: padZeros k (natChars (q.num.natAbs * (10 ^ k / q.den) % 10 ^ k))⟩) := by
      unfold jsNumToString
      rw [hk]
    rw [hstr] at hc
    by_cases hk0 : k = 0
    · rw [if_pos hk0, stringData_mk] at hc
      rcases List.mem_append.mp hc with hs | hn
      · by_cases hneg : q.num < 0
        · rw [if_pos hneg] at hs
          simp only [List.mem_singleton] at hs
          subst hs
          right; left; rfl
        · rw [if_neg hneg] at hs
          simp at hs
      · exact Or.inl (natChars_isDigit _ c hn)
    · rw [if_neg hk0, stringData_mk] at hc
      rcases List.mem_append.mp hc with hs | htail
      · rcases List.mem_append.mp hs with hs | hn
        · by_cases hneg : q.num < 0
          · rw [if_pos hneg] at hs
            simp only [List.mem_singleton] at hs
            subst hs
            right; left; rfl
          · rw [if_neg hneg] at hs
            simp at hs
        · exact Or.inl (natChars_isDigit _ c hn)
      · rcases List.mem_cons.mp htail with rfl | hb
        · right; right; left; rfl
        · exact Or.inl (padZeros_isDigit _ _ (natChars_isDigit _) c hb)

theorem jsNumToString_ne_empty (q : ℚ) : jsNumToString q ≠ "" := by
  cases hk : decExp q with
  | none =>
    have hstr : jsNumToString q = "?" := by
      unfold jsNumToString
      rw [hk]
    rw [hstr]
    decide
  | some k =>
    have hstr : jsNumToString q =
        (if k = 0 then
          (⟨(if q.num < 0 then ['-'] else []) ++
            natChars (q.num.natAbs * (10 ^ k / q.den))⟩ : String)
        else
          ⟨(if q.num < 0 then ['-'] else []) ++
            natChars (q.num.natAbs * (10 ^ k / q.den) / 10 ^ k) ++
            '.' :: padZeros k (natChars (q.num.natAbs * (10 ^ k / q.den) % 10 ^ k))⟩) := by
      unfold jsNumToString
      rw [hk]
    rw [hstr]
    by_cases hk0 : k = 0
    · rw [if_pos hk0]
      intro he
      have hd : ((if q.num < 0 then ['-'] else []) ++
          natChars (q.num.natAbs * (10 ^ k / q.den))) = [] := congrArg String.data he
      rcases List.append_eq_nil.mp hd with ⟨_, hn⟩
      exact natChars_ne_nil _ hn
    · rw [if_neg hk0]
      intro he
      have hd := congrArg String.data he
      rcases List.append_eq_nil.mp hd with ⟨_, hn⟩
      exact List.cons_ne_nil _ _ hn

theorem fieldToJS_serialJS (v : JSVal) (hv : goodVal v = true) :
    fieldToJS (serialJS v) = v := by
  cases v with
  | undef => rfl
  | nan => decide
  | num q =>
    unfold fieldToJS
    simp only [serialJS]
    rw [if_neg (jsNumToString_ne_empty q),
      parseFloatJS_jsNumToString q (by simpa [goodVal] using hv)]

/-- C8 counterexample: on the empty row sequence `Papa.unparse` produces the
empty string, so no header row is emitted — the claim fails for the empty
sequence (papaparse takes the column names from the first row and has none). -/
theorem csv_export_empty_counterexample :
    papaUnparse [] = "" ∧
    ("" : String) ≠ "person,past12Months,y2d,may,june,july,netEarningsPrevMonth" :=
  ⟨rfl, by decide⟩

/-- C8 (amended): for every nonempty row sequence, the export's first line is
exactly the Row field names `person,past12Months,y2d,may,june,july,netEarningsPrevMonth`
followed by the `"\r\n"` terminator; an `undefined` cell serializes as the
empty field; a numeric cell serializes as the raw decimal rendering of its
value, which contains neither a percent sign nor a currency symbol. -/

theorem csv_header_and_raw_values (r : Row) (rest : List Row) :
    (∃ t : List Char, (papaUnparse (r :: rest)).data =
      "person,past12Months,y2d,may,june,july,netEarningsPrevMonth".data ++
        '\r' :: '\n' :: t) ∧
    serialJS JSVal.undef = "" ∧
    (∀ q : ℚ, serialJS (JSVal.num q) = jsNumToString q ∧
      '%' ∉ (jsNumToString q).data ∧ '€' ∉ (jsNumToString q).data) := by
  refine ⟨?_, rfl, ?_⟩
  · refine ⟨joinSep ['\r', '\n'] ((r :: rest).map rowLineChars), ?_⟩
    have h1 : (papaUnparse (r :: rest)).data =
        joinSep ['\r', '\n']
          (joinSep [','] (headerFields.map (fun s => (csvSafe s).data)) ::
            rowLineChars r :: rest.map rowLineChars) := rfl
    rw [h1,
      show joinSep ['\r', '\n']
          (joinSep [','] (headerFields.map (fun s => (csvSafe s).data)) ::
            rowLineChars r :: rest.map rowLineChars) =
        joinSep [','] (headerFields.map (fun s => (csvSafe s).data)) ++ ['\r', '\n'] ++
          joinSep ['\r', '\n'] (rowLineChars r :: rest.map rowLineChars) from rfl,
      show joinSep [','] (headerFields.map (fun s => (csvSafe s).data)) =
        "person,past12Months,y2d,may,june,july,netEarningsPrevMonth".data from by decide,
      List.append_assoc]
    rfl
  · intro q
    refine ⟨rfl, fun hmem => ?_, fun hmem => ?_⟩ <;>
      rcases jsNumToString_chars q _ hmem with hd | h1 | h1 | h1 <;>
        first
          | exact absurd hd (by decide)
          | exact absurd h1 (by decide)

/-- C9: for every row sequence whose numeric values are decimal fractions
(exactly the values a finite JS double prints), exporting to CSV and
re-parsing with a standard CSV parser reproduces the table: the header line
and every person string — through quoting, escaping and embedded line
breaks — and, reading fields back as values, every numeric cell, with empty
fields parsing back to absent; the empty sequence exports to the empty
string, which parses to no records. -/
theorem csv_round_trip (rows : List Row)
    (h : ∀ x ∈ rows, (rowValues x).all goodVal = true) :
    papaParse (papaUnparse rows) =
      (if rows = [] then [] else headerFields :: rows.map rowCells) ∧
    (∀ x ∈ rows, ((rowValues x).map serialJS).map fieldToJS = rowValues x) := by
  constructor
  · cases rows with
    | nil => rfl
    | cons r rest =>
      rw [if_neg (List.cons_ne_nil r rest)]
      have hne : papaUnparse (r :: rest) ≠ "" := by
        intro he
        have h2 : (papaUnparse (r :: rest)).data = [] := by
          rw [he]
        rw [show (papaUnparse (r :: rest)).data =
            joinSep [','] (headerFields.map (fun s => (csvSafe s).data)) ++ ['\r', '\n'] ++
              joinSep ['\r', '\n'] (rowLineChars r :: rest.map rowLineChars) from rfl] at h2
        simp at h2
      unfold papaParse
      rw [if_neg hne]
      have hdata : (papaUnparse (r :: rest)).data =
          joinSep ['\r', '\n'] ((headerFields :: (r :: rest).map rowCells).map
            (fun cr => joinSep [','] (cr.map (fun s => (csvSafe s).data)))) := by
        rw [List.map_cons, List.map_map]
        rfl
      rw [hdata, scan_lines _ ?hcrne _ (List.cons_ne_nil _ _)]
      case hcrne =>
        intro cr hcr
        rcases List.mem_cons.mp hcr with rfl | hcr
        · decide
        · obtain ⟨x, _, rfl⟩ := List.mem_map.mp hcr
          exact List.cons_ne_nil _ _
      rfl
  · intro x hx
    have hall := h x hx
    rw [List.all_eq_true] at hall
    rw [List.map_map]
    calc (rowValues x).map (fieldToJS ∘ serialJS)
        = (rowValues x).map id :=
          List.map_congr_left (fun v hv => fieldToJS_serialJS v (hall v hv))
      _ = rowValues x := List.map_id _

/-- Witness for C9 at `rDemo`: the parsed export is the header plus the
cells of the row — the embedded line break of the person name included — and
re-reading the six value fields gives back exactly the original values. -/
theorem csv_round_trip_witness :
    papaParse (papaUnparse [rDemo]) = headerFields :: [rowCells rDemo] ∧
    ((rowValues rDemo).map serialJS).map fieldToJS = rowValues rDemo := by
  have h := csv_round_trip [rDemo]
    (by
      intro x hx
      rw [List.mem_singleton] at hx
      subst hx
      decide)
  refine ⟨?_, h.2 rDemo (List.mem_singleton_self _)⟩
  have h1 := h.1
  rw [if_neg (by simp)] at h1
  exact h1
